import Mathlib

/-!
# Verification of the GeneTrust edit-prediction core (`src/genepredictor/app.py`)

Shallow embedding of the algorithmic core of the repository's single source
file.  Python floats are modelled as `ℚ`; a Python string of nucleotide
symbols is a `List Char`; a per-token embedding matrix (a `torch` tensor of
shape `n × D`) is a `List (List ℚ)`.  Code that can raise (`IndexError` on
`seq[idx]`, `TypeError` on concatenating `None`, `torch.argmin` on an empty
tensor) returns `Except`, and the outer `try/except` of the endpoint maps
those errors to a 500 response.

The DNABERT-2 encoder (`get_token_embeddings`, i.e. tokenizer + model) and
`torch`'s cosine-similarity kernel are external code, not part of this
repository.  Modelled from the spec: the encoder is "a frozen function
mapping a finite-alphabet sequence to an ordered sequence of fixed-dimension
vectors, ... deterministic for fixed model weights", so it appears as an
explicit function parameter `embed : List Char → Mat`; cosine similarity is
"the normalized dot-product similarity between two vectors, in [-1, 1]",
and appears as an explicit parameter `cos : Vec → Vec → ℚ`.  All theorems
quantify over these parameters (adding the spec's range bound where a claim
needs it), so they hold for every encoder and every similarity kernel
satisfying the spec's interface.
-/

set_option maxRecDepth 8000

abbrev Vec := List ℚ
abbrev Mat := List Vec

/-- `BASES = ['A', 'T', 'C', 'G']` from the source. -/
def BASES : List Char := ['A', 'T', 'C', 'G']

/-- Vector addition, used to model `torch` position-wise sums. -/
def addVec (a b : Vec) : Vec := List.zipWith (· + ·) a b

/-- Sum of the rows of a matrix (the reduction inside `tensor.mean(dim=0)`). -/
def sumVecs : Mat → Vec
  | [] => []
  | [v] => v
  | v :: rest => addVec v (sumVecs rest)

/-- `tensor.mean(dim=0)` on an `n × D` matrix: the vector of column means. -/
def meanPool (m : Mat) : Vec :=
  (sumVecs m).map (· / (m.length : ℚ))

/-- `emb.size(1)`: the width (embedding dimension) of a matrix. -/
def vecDim (m : Mat) : Nat :=
  match m with
  | [] => 0
  | v :: _ => v.length

/-- Matrix addition (position-wise), the reduction inside
`torch.stack(xs).mean(dim=0)`. -/
def addMat (a b : Mat) : Mat := List.zipWith addVec a b

/-- `torch.stack(ms).mean(dim=0)`: position-wise arithmetic mean of a
non-empty list of equally-shaped matrices. -/
def stackMean (ms : List Mat) : Mat :=
  match ms with
  | [] => []
  | m :: rest => (rest.foldl addMat m).map (fun v => v.map (· / (ms.length : ℚ)))

/-- The running `max_len = max(max_len, token_embed.size(0))` fold of
`generate_reference_token_embedding`, starting from `0`. -/
def maxLenMats (ms : List Mat) : Nat :=
  ms.foldl (fun m e => max m e.length) 0

/-- Zero-padding of a matrix's tail up to length `L` with rows of width `D`
(`torch.cat([emb, torch.zeros(pad_size, emb.size(1))], dim=0)`). -/
def padTail (D L : Nat) (m : Mat) : Mat :=
  m ++ List.replicate (L - m.length) (List.replicate D 0)

/-- `generate_reference_token_embedding(sequences)` from the source: embed
every reference, zero-pad each matrix's tail to the maximum token count, and
average position-wise. -/
def generate_reference_token_embedding (embed : List Char → Mat)
    (sequences : List (List Char)) : Mat :=
  let all_token_embeds := sequences.map embed
  let max_len := maxLenMats all_token_embeds
  let padded_embeds := all_token_embeds.map (fun emb => padTail (vecDim emb) max_len emb)
  stackMean padded_embeds

/-- `torch.argmin(xs).item()` on a 1-D tensor: the first index attaining the
minimum.  `argmin` of an empty tensor raises in `torch`; the raising branch
is modelled at the call site (`find_problematic_position`). -/
def argminIdx : List ℚ → Nat
  | [] => 0
  | [_] => 0
  | x :: y :: rest =>
    let j := argminIdx (y :: rest)
    if x ≤ (y :: rest).getD j 0 then 0 else j + 1

/-- `find_problematic_position(token_embeddings, reference_embeddings)`:
per-position cosine similarities against the profile truncated to the
candidate's length, then `argmin`.  An empty similarity tensor makes
`torch.argmin` raise, modelled as `Except.error`. -/
def find_problematic_position (cos : Vec → Vec → ℚ) (tok ref : Mat) :
    Except String Nat :=
  let sims := List.zipWith cos tok (ref.take tok.length)
  if sims.isEmpty then Except.error "argmin on an empty tensor"
  else Except.ok (argminIdx sims)

/-- `seq[:idx] + base + seq[idx + 1:]` (Python slices clamp out-of-range
bounds, as `List.take`/`List.drop` do). -/
def mutate (s : List Char) (i : Nat) (c : Char) : List Char :=
  s.take i ++ c :: s.drop (i + 1)

/-- One iteration of the best-tracking loop of `choose_best_alternate_base`:
`if score > best_score: best_score = score; best_base = base`. -/
def bestStep (f : Char → ℚ) (acc : Option Char × ℚ) (b : Char) :
    Option Char × ℚ :=
  if acc.2 < f b then (some b, f b) else acc

/-- The whole-sequence score a candidate base receives inside
`choose_best_alternate_base`: re-embed the mutated sequence in full,
mean-pool it, and compare with the mean-pooled reference profile. -/
def altScore (embed : List Char → Mat) (cos : Vec → Vec → ℚ) (seq : List Char)
    (idx : Nat) (ref : Mat) (b : Char) : ℚ :=
  cos (meanPool (embed (mutate seq idx b))) (meanPool ref)

/-- `choose_best_alternate_base(seq, idx, reference_token_embeddings)`:
fold over the alternates of `seq[idx]` in alphabet order, starting from
`(None, -1)`.  `seq[idx]` raises `IndexError` when `idx` is out of range,
modelled as `Except.error`. -/
def choose_best_alternate_base (embed : List Char → Mat) (cos : Vec → Vec → ℚ)
    (seq : List Char) (idx : Nat) (ref : Mat) :
    Except String (Option Char × ℚ) :=
  match seq.get? idx with
  | none => Except.error "IndexError: string index out of range"
  | some original =>
    Except.ok ((BASES.filter (fun b => b ≠ original)).foldl
      (bestStep (altScore embed cos seq idx ref)) (none, -1))

/-- `get_sequence_score(seq, reference_token_embeddings)`. -/
def get_sequence_score (embed : List Char → Mat) (cos : Vec → Vec → ℚ)
    (seq : List Char) (ref : Mat) : ℚ :=
  cos (meanPool (embed seq)) (meanPool ref)

/-- `predict_edit(seq, reference_token_embeddings)`.  When the loop of
`choose_best_alternate_base` never updates its `None` initial value, the
concatenation `seq[:problem_idx] + new_base + ...` raises `TypeError`,
modelled as `Except.error`. -/
def predict_edit (embed : List Char → Mat) (cos : Vec → Vec → ℚ)
    (seq : List Char) (ref : Mat) : Except String (List Char × Nat × Char × ℚ) :=
  match find_problematic_position cos (embed seq) ref with
  | Except.error e => Except.error e
  | Except.ok problem_idx =>
    match choose_best_alternate_base embed cos seq problem_idx ref with
    | Except.error e => Except.error e
    | Except.ok (none, _) =>
      Except.error "TypeError: can only concatenate str to str, not NoneType"
    | Except.ok (some new_base, edited_score) =>
      Except.ok (mutate seq problem_idx new_base, problem_idx, new_base, edited_score)

/-- Python's `str.upper()` (per-character; ASCII covers the nucleotide
alphabet and its lowercase variants). -/
def pyUpper (s : List Char) : List Char := s.map Char.toUpper

/-- Python's `int(x)` on a float: truncation toward zero. -/
def pyTrunc (q : ℚ) : ℤ :=
  if 0 ≤ q then ⌊q⌋ else ⌈q⌉

/-- The `'.' * 20` indicator with `'*'` spliced in at `index` when
`index < 20` (the source guards with `if index < len(change_indicator)`). -/
def mkIndicator (index : Nat) : List Char :=
  let dots := List.replicate 20 '.'
  if index < dots.length then dots.take index ++ '*' :: dots.drop (index + 1)
  else dots

/-- `f"🔼 Editing improves similarity from {original_efficiency}% to {efficiency}%"`. -/
def improveMsg (o e : ℤ) : String :=
  "🔼 Editing improves similarity from " ++ toString o ++ "% to " ++ toString e ++ "%"

/-- `f"✅ Sequence is already optimal (similarity: {original_efficiency}%)"`. -/
def optimalMsg (o : ℤ) : String :=
  "✅ Sequence is already optimal (similarity: " ++ toString o ++ "%)"

/-- The JSON body of a successful `/predict` response. -/
structure PredictResponse where
  originalSequence : List Char
  editedSequence : List Char
  changeIndicator : List Char
  efficiency : ℤ
  changedPosition : Nat
  originalBase : Char
  newBase : Char
  message : String
  originalEfficiency : ℤ
  deriving Repr, DecidableEq

/-- The three observable outcomes of `POST /predict`: a 400 validation
error, a 500 internal error (the outer `except` clause), or a 200 response. -/
inductive PredictResult where
  | validationError (msg : String)
  | internalError (msg : String)
  | ok (r : PredictResponse)
  deriving Repr, DecidableEq

/-- `predict_sequence(data)` from the source: upper-case, validate length
then alphabet, score the original, run `predict_edit`, and assemble the
response (`sequence[index]` raises `IndexError` when `index ≥ 20`). -/
def predict_sequence (embed : List Char → Mat) (cos : Vec → Vec → ℚ)
    (ref : Mat) (raw : List Char) : PredictResult :=
  let sequence := pyUpper raw
  if sequence.length ≠ 20 then
    PredictResult.validationError "Sequence must be exactly 20 characters long"
  else if ¬ (sequence.all (fun c => BASES.contains c)) then
    PredictResult.validationError "Sequence must contain only A, T, C, G"
  else
    let original_score := get_sequence_score embed cos sequence ref
    match predict_edit embed cos sequence ref with
    | Except.error e => PredictResult.internalError e
    | Except.ok (edited_seq, index, base, edited_score) =>
      match sequence.get? index with
      | none => PredictResult.internalError "IndexError: string index out of range"
      | some origBase =>
        let efficiency := pyTrunc (edited_score * 100)
        let original_efficiency := pyTrunc (original_score * 100)
        let message :=
          if original_score < edited_score then improveMsg original_efficiency efficiency
          else optimalMsg original_efficiency
        PredictResult.ok
          { originalSequence := sequence
            editedSequence := edited_seq
            changeIndicator := mkIndicator index
            efficiency := efficiency
            changedPosition := index + 1
            originalBase := origBase
            newBase := base
            message := message
            originalEfficiency := original_efficiency }

/-! ## Concrete instances of the spec-modelled encoder interface

Used to witness the theorems below and to exhibit counterexamples.  Each
similarity instance agrees with the true cosine on the vectors it is applied
to: `cW a b = a₀ * b₀` is the cosine of 1-dimensional vectors drawn from
`{[0], [1]}` (`torch` clamps the zero-norm case to `0` via `eps`);
`cosSign` is the exact cosine of non-zero 1-dimensional vectors; `dotQ` is
the exact cosine of unit vectors such as `[-3/5, 4/5]` and `[1, 0]`. -/

/-- Witness encoder: one 1-dimensional vector per symbol, `[0]` for `'A'`
and `[1]` otherwise. -/
def eW : List Char → Mat := fun s => s.map (fun ch => [if ch = 'A' then 0 else 1])

/-- Witness similarity kernel: product of first coordinates (the cosine of
1-dimensional vectors from `{[0], [1]}`). -/
def cW : Vec → Vec → ℚ := fun a b => a.headD 0 * b.headD 0

/-- Witness reference profile: twenty positions of `[1]`. -/
def refW : Mat := List.replicate 20 [1]

/-- Witness input sequence: `'A'` at index 4, `'T'` elsewhere. -/
def seqW : List Char :=
  ['T','T','T','T','A','T','T','T','T','T','T','T','T','T','T','T','T','T','T','T']

/-- Lowercase variant of `seqW` (same symbols, lower case). -/
def seqLW : List Char :=
  ['t','t','t','t','a','t','t','t','t','t','t','t','t','t','t','t','t','t','t','t']

/-- Token-embedding matrix `eW` assigns to `seqW`. -/
def matW : Mat :=
  [[1],[1],[1],[1],[0],[1],[1],[1],[1],[1],[1],[1],[1],[1],[1],[1],[1],[1],[1],[1]]

/-- Response produced by the pipeline on `seqW` with `eW`, `cW`, `refW`. -/
def rW : PredictResponse :=
  { originalSequence := seqW
    editedSequence := List.replicate 20 'T'
    changeIndicator := mkIndicator 4
    efficiency := 100
    changedPosition := 5
    originalBase := 'A'
    newBase := 'T'
    message := improveMsg 95 100
    originalEfficiency := 95 }

/-- All-`'A'` 20-symbol sequence. -/
def seqA : List Char := List.replicate 20 'A'

/-- Counterexample encoder: every sequence embeds to the single vector
`[-1]`, antipodal to the reference profile `refCE`. -/
def eCE : List Char → Mat := fun _ => [[-1]]

/-- Sign of the coordinate product: the exact cosine of non-zero
1-dimensional vectors. -/
def cosSign : Vec → Vec → ℚ := fun a b =>
  let x := a.headD 0 * b.headD 0
  if x < 0 then -1 else if 0 < x then 1 else 0

/-- Counterexample reference profile for `eCE`. -/
def refCE : Mat := [[1]]

/-- Counterexample encoder for the efficiency-range claim: every sequence
embeds to the unit vector `[-3/5, 4/5]`. -/
def eC3 : List Char → Mat := fun _ => [[-3/5, 4/5]]

/-- Dot product, which is the exact cosine on unit vectors. -/
def dotQ : Vec → Vec → ℚ := fun a b => (List.zipWith (· * ·) a b).sum

/-- Counterexample reference profile for `eC3`: the unit vector `[1, 0]`. -/
def refC3 : Mat := [[1, 0]]

/-- Response produced by the pipeline on `seqA` with `eC3`, `dotQ`,
`refC3`: all scores are `-3/5`, so both efficiency fields are `-60`. -/
def rC3 : PredictResponse :=
  { originalSequence := seqA
    editedSequence := mutate seqA 0 'T'
    changeIndicator := mkIndicator 0
    efficiency := -60
    changedPosition := 1
    originalBase := 'A'
    newBase := 'T'
    message := optimalMsg (-60)
    originalEfficiency := -60 }

/-- Witness encoder for the profile builder: one width-1 row per symbol,
`[1]` for `'A'` and `[2]` otherwise, so references of different lengths
produce matrices of different token counts. -/
def eC6 : List Char → Mat := fun s => s.map (fun ch => [if ch = 'A' then 1 else 2])

/-- Shape predicate for matrices: `L` rows, each of width `D` (the shape
`L x D` of the corresponding `torch` tensor). -/
def Shaped (L D : Nat) (m : Mat) : Prop :=
  m.length = L ∧ ∀ v ∈ m, v.length = D

deriving instance DecidableEq for Except

/-! ## Evaluation of the pipeline on the concrete instances -/

theorem eW_seqW : eW seqW = matW := by decide

theorem fppW : find_problematic_position cW (eW seqW) refW = Except.ok 4 := by
  rw [eW_seqW]
  norm_num [find_problematic_position, cW, refW, argminIdx, matW, List.replicate]

theorem scoreW : get_sequence_score eW cW seqW refW = 19/20 := by
  rw [get_sequence_score, eW_seqW]
  norm_num [cW, refW, meanPool, sumVecs, addVec, matW, List.replicate]

theorem altW_T : altScore eW cW seqW 4 refW 'T' = 1 := by
  rw [altScore, show eW (mutate seqW 4 'T') = List.replicate 20 [1] from by decide]
  norm_num [cW, refW, meanPool, sumVecs, addVec, List.replicate]

theorem altW_C : altScore eW cW seqW 4 refW 'C' = 1 := by
  rw [altScore, show eW (mutate seqW 4 'C') = List.replicate 20 [1] from by decide]
  norm_num [cW, refW, meanPool, sumVecs, addVec, List.replicate]

theorem altW_G : altScore eW cW seqW 4 refW 'G' = 1 := by
  rw [altScore, show eW (mutate seqW 4 'G') = List.replicate 20 [1] from by decide]
  norm_num [cW, refW, meanPool, sumVecs, addVec, List.replicate]

theorem cbabW : choose_best_alternate_base eW cW seqW 4 refW = Except.ok (some 'T', 1) := by
  simp only [choose_best_alternate_base, show seqW.get? 4 = some 'A' from by decide]
  rw [show List.filter (fun b => decide (b ≠ 'A')) BASES = ['T', 'C', 'G'] from by decide]
  simp only [List.foldl_cons, List.foldl_nil, bestStep, altW_T, altW_C, altW_G]
  norm_num

theorem pedW : predict_edit eW cW seqW refW =
    Except.ok (List.replicate 20 'T', 4, 'T', 1) := by
  simp only [predict_edit, fppW, cbabW]
  decide

theorem predW : predict_sequence eW cW refW seqW = PredictResult.ok rW := by
  rw [predict_sequence, show pyUpper seqW = seqW from by decide]
  simp only [show (seqW.length ≠ 20) = False from by decide, if_false, ite_false,
    show (¬ (seqW.all fun c => BASES.contains c)) = False from by decide,
    pedW, scoreW, show seqW.get? 4 = some 'A' from by decide]
  norm_num [rW, pyTrunc]

/-! ## Properties of `argminIdx` (first index attaining the minimum) -/

theorem argminIdx_cons2 (x y : ℚ) (rest : List ℚ) :
    argminIdx (x :: y :: rest) =
      if x ≤ (y :: rest).getD (argminIdx (y :: rest)) 0 then 0
      else argminIdx (y :: rest) + 1 := rfl

theorem argminIdx_lt_length : ∀ (l : List ℚ), l ≠ [] → argminIdx l < l.length
  | [], h => absurd rfl h
  | [_], _ => Nat.zero_lt_one
  | x :: y :: rest, _ => by
    rw [argminIdx_cons2]
    split
    · simp
    · have ih := argminIdx_lt_length (y :: rest) (by simp)
      simpa using Nat.succ_lt_succ ih

theorem argminIdx_le : ∀ (l : List ℚ) (k : Nat), k < l.length →
    l.getD (argminIdx l) 0 ≤ l.getD k 0
  | [], k, hk => by simp at hk
  | [x], k, hk => by
    obtain rfl : k = 0 := by simpa using hk
    simp [argminIdx]
  | x :: y :: rest, k, hk => by
    rw [argminIdx_cons2]
    split
    · rename_i hx
      match k with
      | 0 => simp
      | k + 1 =>
        have ih := argminIdx_le (y :: rest) k (by simpa using hk)
        calc (x :: y :: rest).getD 0 0 = x := rfl
          _ ≤ (y :: rest).getD (argminIdx (y :: rest)) 0 := hx
          _ ≤ (y :: rest).getD k 0 := ih
          _ = (x :: y :: rest).getD (k + 1) 0 := rfl
    · rename_i hx
      push_neg at hx
      match k with
      | 0 => exact le_of_lt (by simpa using hx)
      | k + 1 =>
        have ih := argminIdx_le (y :: rest) k (by simpa using hk)
        simpa using ih

theorem argminIdx_first : ∀ (l : List ℚ) (k : Nat), k < argminIdx l →
    l.getD (argminIdx l) 0 < l.getD k 0
  | [], k, hk => by simp [argminIdx] at hk
  | [_], k, hk => by simp [argminIdx] at hk
  | x :: y :: rest, k, hk => by
    rw [argminIdx_cons2] at hk ⊢
    split_ifs at hk ⊢ with hx
    · omega
    · push_neg at hx
      match k with
      | 0 => simpa using hx
      | k + 1 =>
        have ih := argminIdx_first (y :: rest) k (by omega)
        simpa using ih

/-! ## Properties of the best-tracking fold of `choose_best_alternate_base` -/

theorem foldl_bestStep_stay (f : Char → ℚ) :
    ∀ (l : List Char) (a : Option Char × ℚ), (∀ b ∈ l, f b ≤ a.2) →
      l.foldl (bestStep f) a = a
  | [], _, _ => rfl
  | x :: tl, a, h => by
    have hx : ¬ a.2 < f x := not_lt.mpr (h x (List.mem_cons_self x tl))
    have : bestStep f a x = a := by simp [bestStep, hx]
    rw [List.foldl_cons, this]
    exact foldl_bestStep_stay f tl a (fun b hb => h b (List.mem_cons_of_mem x hb))

theorem foldl_bestStep_max (f : Char → ℚ) :
    ∀ (l : List Char) (a0 : Option Char) (s0 : ℚ), (∃ b ∈ l, s0 < f b) →
      ∃ pre b suf, l = pre ++ b :: suf ∧
        l.foldl (bestStep f) (a0, s0) = (some b, f b) ∧ s0 < f b ∧
        (∀ c ∈ l, f c ≤ f b) ∧ (∀ c ∈ pre, f c < f b)
  | [], _, _, h => by simp at h
  | x :: tl, a0, s0, h => by
    rw [List.foldl_cons]
    by_cases hx : s0 < f x
    · have hstep : bestStep f (a0, s0) x = (some x, f x) := by simp [bestStep, hx]
      rw [hstep]
      by_cases hall : ∀ c ∈ tl, f c ≤ f x
      · refine ⟨[], x, tl, rfl, foldl_bestStep_stay f tl (some x, f x) hall, hx, ?_, ?_⟩
        · intro c hc
          rcases List.mem_cons.mp hc with rfl | hc
          · exact le_refl _
          · exact hall c hc
        · intro c hc
          simp at hc
      · push_neg at hall
        obtain ⟨c, hc, hcx⟩ := hall
        obtain ⟨pre, b, suf, hdecomp, hfold, hlt, hmax, hpre⟩ :=
          foldl_bestStep_max f tl (some x) (f x) ⟨c, hc, hcx⟩
        refine ⟨x :: pre, b, suf, by rw [hdecomp]; rfl, hfold, lt_trans hx hlt, ?_, ?_⟩
        · intro d hd
          rcases List.mem_cons.mp hd with rfl | hd
          · exact le_of_lt hlt
          · exact hmax d hd
        · intro d hd
          rcases List.mem_cons.mp hd with rfl | hd
          · exact hlt
          · exact hpre d hd
    · have hstep : bestStep f (a0, s0) x = (a0, s0) := by simp [bestStep, hx]
      rw [hstep]
      obtain ⟨c, hc, hcs⟩ := h
      rcases List.mem_cons.mp hc with rfl | hc
      · exact absurd hcs hx
      · obtain ⟨pre, b, suf, hdecomp, hfold, hlt, hmax, hpre⟩ :=
          foldl_bestStep_max f tl a0 s0 ⟨c, hc, hcs⟩
        refine ⟨x :: pre, b, suf, by rw [hdecomp]; rfl, hfold, hlt, ?_, ?_⟩
        · intro d hd
          rcases List.mem_cons.mp hd with rfl | hd
          · exact le_of_lt (lt_of_le_of_lt (not_lt.mp hx) hlt)
          · exact hmax d hd
        · intro d hd
          rcases List.mem_cons.mp hd with rfl | hd
          · exact lt_of_le_of_lt (not_lt.mp hx) hlt
          · exact hpre d hd

theorem foldl_bestStep_inv (f : Char → ℚ) :
    ∀ (l : List Char) (a : Option Char × ℚ),
      l.foldl (bestStep f) a = a ∨ ∃ b ∈ l, l.foldl (bestStep f) a = (some b, f b)
  | [], _ => Or.inl rfl
  | x :: tl, a => by
    rw [List.foldl_cons]
    by_cases hx : a.2 < f x
    · have hstep : bestStep f a x = (some x, f x) := by simp [bestStep, hx]
      rw [hstep]
      rcases foldl_bestStep_inv f tl (some x, f x) with h | ⟨b, hb, h⟩
      · exact Or.inr ⟨x, List.mem_cons_self x tl, h⟩
      · exact Or.inr ⟨b, List.mem_cons_of_mem x hb, h⟩
    · have hstep : bestStep f a x = a := by simp [bestStep, hx]
      rw [hstep]
      rcases foldl_bestStep_inv f tl a with h | ⟨b, hb, h⟩
      · exact Or.inl h
      · exact Or.inr ⟨b, List.mem_cons_of_mem x hb, h⟩

/-! ## Properties of `mutate` (single-position substitution) -/

theorem mutate_getElem? (s : List Char) (i : Nat) (c : Char) (hi : i < s.length)
    (k : Nat) : (mutate s i c)[k]? =
      if k < i then s[k]? else if k = i then some c else s[k]? := by
  have hlen : (s.take i).length = i := List.length_take_of_le (le_of_lt hi)
  rw [mutate, List.getElem?_append, hlen]
  by_cases hk : k < i
  · simp [hk, List.getElem?_take]
  · simp only [hk, if_false]
    by_cases he : k = i
    · subst he
      simp
    · have : 1 ≤ k - i := by omega
      rw [show k - i = (k - i - 1) + 1 by omega]
      simp only [List.getElem?_cons_succ, List.getElem?_drop, he, if_false]
      congr 1
      omega

theorem mutate_length (s : List Char) (i : Nat) (c : Char) (hi : i < s.length) :
    (mutate s i c).length = s.length := by
  rw [mutate]
  simp
  omega

theorem mutate_getD_self (s : List Char) (i : Nat) (c : Char) (hi : i < s.length)
    (d : Char) : (mutate s i c).getD i d = c := by
  rw [List.getD_eq_getElem?_getD, mutate_getElem? s i c hi]
  simp

theorem mutate_getD_of_ne (s : List Char) (i : Nat) (c : Char) (hi : i < s.length)
    (k : Nat) (hk : k ≠ i) (d : Char) :
    (mutate s i c).getD k d = s.getD k d := by
  rw [List.getD_eq_getElem?_getD, mutate_getElem? s i c hi, List.getD_eq_getElem?_getD]
  by_cases h : k < i
  · simp [h]
  · simp [h, hk]

/-! ## Properties of `mkIndicator` -/

theorem mkIndicator_eq_mutate (i : Nat) (hi : i < 20) :
    mkIndicator i = mutate (List.replicate 20 '.') i '*' := by
  rw [mkIndicator, mutate]
  simp [hi]

theorem mkIndicator_length (i : Nat) : (mkIndicator i).length = 20 := by
  by_cases hi : i < 20
  · rw [mkIndicator_eq_mutate i hi, mutate_length]
    · simp
    · simpa using hi
  · rw [mkIndicator]
    simp [hi]

theorem mkIndicator_getD (i : Nat) (hi : i < 20) (k : Nat) (hk : k < 20) :
    (mkIndicator i).getD k ' ' = if k = i then '*' else '.' := by
  have hi20 : i < (List.replicate 20 '.').length := by simpa using hi
  rw [mkIndicator_eq_mutate i hi]
  by_cases h : k = i
  · subst h
    rw [mutate_getD_self _ _ _ hi20]
    simp
  · rw [mutate_getD_of_ne _ _ _ hi20 k h, List.getD_eq_getElem?_getD,
      List.getElem?_replicate]
    simp [h, hk]

/-! ## Inversion lemmas for the success paths of the pipeline -/

theorem choose_best_ok_some_inv (embed : List Char → Mat) (cos : Vec → Vec → ℚ)
    (seq : List Char) (idx : Nat) (ref : Mat) (b : Char) (s : ℚ)
    (h : choose_best_alternate_base embed cos seq idx ref = Except.ok (some b, s)) :
    ∃ original, seq.get? idx = some original ∧ b ∈ BASES ∧ b ≠ original ∧
      s = altScore embed cos seq idx ref b := by
  rcases hget : seq.get? idx with _ | original
  · rw [choose_best_alternate_base, hget] at h
    exact absurd h (by simp)
  · simp only [choose_best_alternate_base, hget] at h
    have hfold : (BASES.filter (fun c => decide (c ≠ original))).foldl
        (bestStep (altScore embed cos seq idx ref)) (none, -1) = (some b, s) :=
      Except.ok.inj h
    rcases foldl_bestStep_inv (altScore embed cos seq idx ref)
        (BASES.filter (fun c => decide (c ≠ original))) (none, -1) with hstay | ⟨c, hc, heq⟩
    · rw [hstay] at hfold
      simp at hfold
    · rw [heq] at hfold
      obtain ⟨h1, h2⟩ := Prod.mk.injEq .. |>.mp hfold
      obtain rfl : c = b := Option.some.inj h1
      have hcmem := List.mem_filter.mp hc
      exact ⟨original, rfl, hcmem.1, by simpa using hcmem.2, h2.symm⟩

theorem predict_edit_ok_inv (embed : List Char → Mat) (cos : Vec → Vec → ℚ)
    (seq : List Char) (ref : Mat) (edited : List Char) (index : Nat)
    (base : Char) (score : ℚ)
    (h : predict_edit embed cos seq ref = Except.ok (edited, index, base, score)) :
    find_problematic_position cos (embed seq) ref = Except.ok index ∧
    choose_best_alternate_base embed cos seq index ref = Except.ok (some base, score) ∧
    edited = mutate seq index base := by
  rw [predict_edit] at h
  split at h
  · exact absurd h (by simp)
  · rename_i problem_idx hf
    split at h
    · exact absurd h (by simp)
    · exact absurd h (by simp)
    · rename_i new_base edited_score hc
      obtain ⟨he, hi, hb, hs⟩ : mutate seq problem_idx new_base = edited ∧
          problem_idx = index ∧ new_base = base ∧ edited_score = score := by
        have := Except.ok.inj h
        simp only [Prod.mk.injEq] at this
        tauto
      subst hi hb hs
      exact ⟨hf, hc, he.symm⟩

theorem predict_ok_inv (embed : List Char → Mat) (cos : Vec → Vec → ℚ)
    (ref : Mat) (raw : List Char) (r : PredictResponse)
    (h : predict_sequence embed cos ref raw = PredictResult.ok r) :
    ∃ edited index base edited_score origBase,
      (pyUpper raw).length = 20 ∧
      ((pyUpper raw).all fun c => BASES.contains c) = true ∧
      predict_edit embed cos (pyUpper raw) ref =
        Except.ok (edited, index, base, edited_score) ∧
      (pyUpper raw).get? index = some origBase ∧
      r = { originalSequence := pyUpper raw
            editedSequence := edited
            changeIndicator := mkIndicator index
            efficiency := pyTrunc (edited_score * 100)
            changedPosition := index + 1
            originalBase := origBase
            newBase := base
            message :=
              if get_sequence_score embed cos (pyUpper raw) ref < edited_score then
                improveMsg (pyTrunc (get_sequence_score embed cos (pyUpper raw) ref * 100))
                  (pyTrunc (edited_score * 100))
              else
                optimalMsg (pyTrunc (get_sequence_score embed cos (pyUpper raw) ref * 100))
            originalEfficiency :=
              pyTrunc (get_sequence_score embed cos (pyUpper raw) ref * 100) } := by
  simp only [predict_sequence] at h
  split_ifs at h with h1 h2
  split at h
  any_goals (exfalso; revert h; simp; done)
  rename_i edited_seq index base edited_score hpe
  split at h
  any_goals (exfalso; revert h; simp; done)
  rename_i origBase hget
  refine ⟨edited_seq, index, base, edited_score, origBase, by omega, ?_, ?_, ?_,
    (PredictResult.ok.inj h).symm⟩
  · simpa using h2
  · simpa using hpe
  · simpa using hget

/-! ## Claim C2 -/

/-- C2: for every non-empty candidate token-embedding matrix of length at
most the profile's length, `find_problematic_position` returns an index in
`[0, candidate length)` minimising the per-position cosine similarity
between candidate and profile (computed over the first candidate-length
profile positions), and among tied minima it returns the smallest index. -/
theorem C2_diagnose_argmin (cos : Vec → Vec → ℚ) (tok ref : Mat)
    (hne : tok ≠ []) (hlen : tok.length ≤ ref.length) :
    ∃ i, find_problematic_position cos tok ref = Except.ok i ∧ i < tok.length ∧
      (∀ k, k < tok.length →
        cos (tok.getD i []) (ref.getD i []) ≤ cos (tok.getD k []) (ref.getD k [])) ∧
      (∀ k, k < i → cos (tok.getD i []) (ref.getD i []) < cos (tok.getD k []) (ref.getD k [])) := by
  have hslen : (List.zipWith cos tok (ref.take tok.length)).length = tok.length := by
    rw [List.length_zipWith, List.length_take]
    omega
  have hsne : ¬ (List.zipWith cos tok (ref.take tok.length)).isEmpty := by
    rw [List.isEmpty_iff_length_eq_zero, hslen]
    exact fun h0 => hne (List.length_eq_zero.mp h0)
  have hentry : ∀ k, k < tok.length →
      (List.zipWith cos tok (ref.take tok.length)).getD k 0 =
        cos (tok.getD k []) (ref.getD k []) := by
    intro k hk
    have hk' : k < (List.zipWith cos tok (ref.take tok.length)).length := by omega
    have hkr : k < ref.length := lt_of_lt_of_le hk hlen
    have hkt : k < (ref.take tok.length).length := by
      rw [List.length_take]
      omega
    rw [List.getD_eq_getElem _ _ hk', List.getElem_zipWith,
      List.getD_eq_getElem _ _ hk, List.getD_eq_getElem _ _ hkr, List.getElem_take]
  have hlne : List.zipWith cos tok (ref.take tok.length) ≠ [] := by
    intro h0
    apply hsne
    rw [h0]
    rfl
  have hi : argminIdx (List.zipWith cos tok (ref.take tok.length)) < tok.length := by
    have h := argminIdx_lt_length _ hlne
    rwa [hslen] at h
  refine ⟨argminIdx (List.zipWith cos tok (ref.take tok.length)), ?_, hi, ?_, ?_⟩
  · rw [find_problematic_position]
    simp only [hsne, Bool.false_eq_true, if_false]
  · intro k hk
    have hmin := argminIdx_le (List.zipWith cos tok (ref.take tok.length)) k (by omega)
    rwa [hentry _ hi, hentry _ hk] at hmin
  · intro k hk
    have hmin := argminIdx_first (List.zipWith cos tok (ref.take tok.length)) k hk
    rwa [hentry _ hi, hentry _ (by omega : k < tok.length)] at hmin

/-- Witness for C2 at a concrete instance: the candidate `matW` against the
profile `refW` diagnoses index 4, the position of minimal similarity. -/
theorem C2_diagnose_argmin_witness :
    matW ≠ [] ∧ matW.length ≤ refW.length ∧
    ∃ i, find_problematic_position cW matW refW = Except.ok i ∧ i < matW.length ∧
      (∀ k, k < matW.length →
        cW (matW.getD i []) (refW.getD i []) ≤ cW (matW.getD k []) (refW.getD k [])) ∧
      (∀ k, k < i → cW (matW.getD i []) (refW.getD i []) < cW (matW.getD k []) (refW.getD k [])) :=
  ⟨by decide, by decide, C2_diagnose_argmin cW matW refW (by decide) (by decide)⟩

/-! ## Claim C4 -/

/-- C4 (amended): a request whose upper-cased sequence is not exactly 20
characters long is rejected with the length validation error, and a
20-character upper-cased sequence containing a symbol outside
`{A, T, C, G}` is rejected with the fixed alphabet validation error (which
names the allowed alphabet, not the offending symbol).  Both results hold
for every encoder `embed` and kernel `cos`, i.e. no embedding work can
influence them. -/
theorem C4_validation_errors (embed : List Char → Mat) (cos : Vec → Vec → ℚ)
    (ref : Mat) (raw : List Char) :
    ((pyUpper raw).length ≠ 20 →
      predict_sequence embed cos ref raw =
        PredictResult.validationError "Sequence must be exactly 20 characters long") ∧
    ((pyUpper raw).length = 20 →
      ((pyUpper raw).all fun c => BASES.contains c) = false →
      predict_sequence embed cos ref raw =
        PredictResult.validationError "Sequence must contain only A, T, C, G") := by
  constructor
  · intro hl
    rw [predict_sequence, if_pos hl]
  · intro hl ha
    rw [predict_sequence, if_neg (fun hc => hc hl), if_pos (by rw [ha]; exact Bool.false_ne_true)]

/-- Witness for C4: `"AAAAA"` (length 5) is rejected with the length error,
and the 20-character `"ATCGNATCGNATCGNATCGN"` with the alphabet error. -/
theorem C4_validation_errors_witness :
    (pyUpper ['A','A','A','A','A']).length ≠ 20 ∧
    predict_sequence eW cW refW ['A','A','A','A','A'] =
      PredictResult.validationError "Sequence must be exactly 20 characters long" ∧
    (pyUpper ['A','T','C','G','N','A','T','C','G','N','A','T','C','G','N','A','T','C','G','N']).length = 20 ∧
    ((pyUpper ['A','T','C','G','N','A','T','C','G','N','A','T','C','G','N','A','T','C','G','N']).all
      fun c => BASES.contains c) = false ∧
    predict_sequence eW cW refW
        ['A','T','C','G','N','A','T','C','G','N','A','T','C','G','N','A','T','C','G','N'] =
      PredictResult.validationError "Sequence must contain only A, T, C, G" :=
  ⟨by decide,
   (C4_validation_errors eW cW refW ['A','A','A','A','A']).1 (by decide),
   by decide, by decide,
   (C4_validation_errors eW cW refW
     ['A','T','C','G','N','A','T','C','G','N','A','T','C','G','N','A','T','C','G','N']).2
     (by decide) (by decide)⟩

/-- Counterexample for C4 as stated: the five-character input `"ATCGN"` is
rejected citing the length requirement (not the invalid symbol `N`), and
the alphabet error returned for a 20-character sequence containing `N` is a
fixed message that does not mention the symbol `N` anywhere. -/
theorem C4_validation_counterexample :
    predict_sequence eW cW refW ['A','T','C','G','N'] =
      PredictResult.validationError "Sequence must be exactly 20 characters long" ∧
    predict_sequence eW cW refW
        ['A','T','C','G','N','A','T','C','G','N','A','T','C','G','N','A','T','C','G','N'] =
      PredictResult.validationError "Sequence must contain only A, T, C, G" ∧
    'N' ∉ "Sequence must contain only A, T, C, G".data := by
  refine ⟨?_, ?_, by decide⟩
  · rw [predict_sequence, if_pos (by decide)]
  · rw [predict_sequence, if_neg (by decide), if_pos (by decide)]

/-! ## Claim C8 -/

/-- C8: with the encoder and similarity kernel fixed (they are deterministic
functions, as the spec's frozen-encoder guarantee states) and the reference
profile fixed, two runs of the endpoint on the same input that both succeed
produce identical values in every response field. -/
theorem C8_deterministic (embed : List Char → Mat) (cos : Vec → Vec → ℚ)
    (ref : Mat) (raw : List Char) (r1 r2 : PredictResponse)
    (h1 : predict_sequence embed cos ref raw = PredictResult.ok r1)
    (h2 : predict_sequence embed cos ref raw = PredictResult.ok r2) :
    r1.originalSequence = r2.originalSequence ∧
    r1.editedSequence = r2.editedSequence ∧
    r1.changeIndicator = r2.changeIndicator ∧
    r1.efficiency = r2.efficiency ∧
    r1.changedPosition = r2.changedPosition ∧
    r1.originalBase = r2.originalBase ∧
    r1.newBase = r2.newBase ∧
    r1.message = r2.message ∧
    r1.originalEfficiency = r2.originalEfficiency := by
  have h := PredictResult.ok.inj (h1.symm.trans h2)
  rw [h]
  exact ⟨rfl, rfl, rfl, rfl, rfl, rfl, rfl, rfl, rfl⟩

/-- Witness for C8 at the concrete instance: the run on `seqW` succeeds and
two invocations agree on every field. -/
theorem C8_deterministic_witness :
    predict_sequence eW cW refW seqW = PredictResult.ok rW ∧
    (rW.originalSequence = rW.originalSequence ∧
     rW.editedSequence = rW.editedSequence ∧
     rW.changeIndicator = rW.changeIndicator ∧
     rW.efficiency = rW.efficiency ∧
     rW.changedPosition = rW.changedPosition ∧
     rW.originalBase = rW.originalBase ∧
     rW.newBase = rW.newBase ∧
     rW.message = rW.message ∧
     rW.originalEfficiency = rW.originalEfficiency) :=
  ⟨predW, C8_deterministic eW cW refW seqW rW rW predW predW⟩

/-! ## Claim C9 -/

/-- C9: two raw inputs that agree after upper-casing (i.e. differ only in
symbol case) receive the same whole-sequence similarity score and, in fact,
the same endpoint result, because `predict_sequence` upper-cases before
validating and before any scoring. -/
theorem C9_case_insensitive (embed : List Char → Mat) (cos : Vec → Vec → ℚ)
    (ref : Mat) (s1 s2 : List Char) (h : pyUpper s1 = pyUpper s2) :
    get_sequence_score embed cos (pyUpper s1) ref =
      get_sequence_score embed cos (pyUpper s2) ref ∧
    predict_sequence embed cos ref s1 = predict_sequence embed cos ref s2 := by
  constructor
  · rw [h]
  · rw [predict_sequence, predict_sequence, h]

/-- Witness for C9: the all-lowercase variant of `seqW` upper-cases to
`seqW` and is served identically. -/
theorem C9_case_insensitive_witness :
    pyUpper seqLW = pyUpper seqW ∧
    (get_sequence_score eW cW (pyUpper seqLW) refW =
       get_sequence_score eW cW (pyUpper seqW) refW ∧
     predict_sequence eW cW refW seqLW = predict_sequence eW cW refW seqW) :=
  ⟨by decide, C9_case_insensitive eW cW refW seqLW seqW (by decide)⟩

/-! ## Claim C1 -/

/-- C1 (amended): for a valid 20-symbol sequence, a position index into it,
and any encoder/kernel, *provided at least one alternate symbol's
re-embedded whole-sequence similarity exceeds `-1`* (the loop's starting
`best_score`), `choose_best_alternate_base` commits to exactly one
proposal: a symbol of the alphabet different from the original symbol at
that position, scoring at least every other alternate (its fully
re-embedded mutated sequence has maximal whole-sequence similarity to the
mean-pooled reference profile), and strictly beating every alternate that
precedes it in the fixed alphabet evaluation order (first-wins
tie-breaking).  Without the proviso the loop can keep its `None` initial
value — see the counterexample. -/
theorem C1_search_best_alternate (embed : List Char → Mat) (cos : Vec → Vec → ℚ)
    (ref : Mat) (seq : List Char) (idx : Nat) (original : Char)
    (hlen : seq.length = 20) (halpha : ∀ c ∈ seq, c ∈ BASES)
    (hget : seq.get? idx = some original)
    (hsome : ∃ b ∈ BASES.filter (fun c => c ≠ original),
      -1 < altScore embed cos seq idx ref b) :
    ∃ b, choose_best_alternate_base embed cos seq idx ref =
        Except.ok (some b, altScore embed cos seq idx ref b) ∧
      b ∈ BASES ∧ b ≠ original ∧
      (∀ c ∈ BASES.filter (fun c => c ≠ original),
        altScore embed cos seq idx ref c ≤ altScore embed cos seq idx ref b) ∧
      ∃ pre suf, BASES.filter (fun c => c ≠ original) = pre ++ b :: suf ∧
        ∀ c ∈ pre, altScore embed cos seq idx ref c < altScore embed cos seq idx ref b := by
  obtain ⟨pre, b, suf, hdecomp, hfold, hlt, hmax, hpre⟩ :=
    foldl_bestStep_max (altScore embed cos seq idx ref)
      (BASES.filter (fun c => c ≠ original)) none (-1) hsome
  have hbmem : b ∈ BASES.filter (fun c => c ≠ original) := by
    rw [hdecomp]
    exact List.mem_append_right _ (List.mem_cons_self _ _)
  have hmem := List.mem_filter.mp hbmem
  refine ⟨b, ?_, hmem.1, by simpa using hmem.2, hmax, pre, suf, hdecomp, hpre⟩
  simp only [choose_best_alternate_base, hget]
  rw [hfold]

/-- Witness for C1 at the concrete instance: at index 4 of `seqW` (symbol
`'A'`), the alternate `'T'` scores `1 > -1` and the search commits to a
proposal. -/
theorem C1_search_best_alternate_witness :
    seqW.length = 20 ∧ (∀ c ∈ seqW, c ∈ BASES) ∧ seqW.get? 4 = some 'A' ∧
    (∃ b ∈ BASES.filter (fun c => c ≠ 'A'), -1 < altScore eW cW seqW 4 refW b) ∧
    ∃ b, choose_best_alternate_base eW cW seqW 4 refW =
        Except.ok (some b, altScore eW cW seqW 4 refW b) ∧
      b ∈ BASES ∧ b ≠ 'A' ∧
      (∀ c ∈ BASES.filter (fun c => c ≠ 'A'),
        altScore eW cW seqW 4 refW c ≤ altScore eW cW seqW 4 refW b) ∧
      ∃ pre suf, BASES.filter (fun c => c ≠ 'A') = pre ++ b :: suf ∧
        ∀ c ∈ pre, altScore eW cW seqW 4 refW c < altScore eW cW seqW 4 refW b :=
  ⟨by decide, by decide, by decide,
   ⟨'T', by decide, by rw [altW_T]; norm_num⟩,
   C1_search_best_alternate eW cW refW seqW 4 'A' (by decide) (by decide) (by decide)
     ⟨'T', by decide, by rw [altW_T]; norm_num⟩⟩

/-- Counterexample to C1 as stated: with an encoder (realisable by genuine
cosine similarity: every mutated sequence embeds antipodally to the
reference profile, so every alternate scores exactly `-1`), the loop never
improves on its `best_score = -1` start and returns Python's `None` — no
proposal — after which `predict_edit` raises and the endpoint returns a 500
error instead of a proposal. -/
theorem C1_search_none_counterexample :
    choose_best_alternate_base eCE cosSign seqA 0 refCE = Except.ok (none, -1) ∧
    predict_sequence eCE cosSign refCE seqA =
      PredictResult.internalError
        "TypeError: can only concatenate str to str, not NoneType" := by
  have halt : ∀ b : Char, altScore eCE cosSign seqA 0 refCE b = -1 := by
    intro b
    rw [altScore]
    norm_num [eCE, cosSign, refCE, meanPool, sumVecs]
  have hchoose : choose_best_alternate_base eCE cosSign seqA 0 refCE =
      Except.ok (none, -1) := by
    simp only [choose_best_alternate_base, show seqA.get? 0 = some 'A' from by decide]
    rw [show List.filter (fun b => decide (b ≠ 'A')) BASES = ['T', 'C', 'G'] from by decide]
    simp only [List.foldl_cons, List.foldl_nil, bestStep, halt]
    norm_num
  refine ⟨hchoose, ?_⟩
  have hfpp : find_problematic_position cosSign (eCE seqA) refCE = Except.ok 0 := by
    rw [show eCE seqA = [[-1]] from rfl]
    norm_num [find_problematic_position, cosSign, refCE, argminIdx]
  have hped : predict_edit eCE cosSign seqA refCE =
      Except.error "TypeError: can only concatenate str to str, not NoneType" := by
    simp only [predict_edit, hfpp, hchoose]
  rw [predict_sequence, show pyUpper seqA = seqA from by decide,
    if_neg (by decide), if_neg (by decide)]
  simp only [hped]

/-! ## Claim C5 -/

/-- C5: every successful prediction carries a 20-character change indicator
holding `'*'` exactly at the 0-based edited position (`changedPosition - 1`)
and `'.'` at every other position. -/
theorem C5_change_indicator (embed : List Char → Mat) (cos : Vec → Vec → ℚ)
    (ref : Mat) (raw : List Char) (r : PredictResponse)
    (hok : predict_sequence embed cos ref raw = PredictResult.ok r) :
    r.changeIndicator.length = 20 ∧
    r.changedPosition - 1 < 20 ∧
    ∀ k, k < 20 →
      r.changeIndicator.getD k ' ' = if k = r.changedPosition - 1 then '*' else '.' := by
  obtain ⟨edited, index, base, score, origBase, hlen, hall, hpe, hget, hr⟩ :=
    predict_ok_inv embed cos ref raw r hok
  have hidx : index < 20 := by
    by_contra hge
    rw [List.get?_eq_none.mpr (by omega)] at hget
    exact absurd hget (by simp)
  subst hr
  refine ⟨mkIndicator_length index, by simpa using hidx, ?_⟩
  intro k hk
  simpa using mkIndicator_getD index hidx k hk

/-- Witness for C5: the concrete run on `seqW` edits 0-based position 4 and
its indicator is four dots, one star, fifteen dots. -/
theorem C5_change_indicator_witness :
    predict_sequence eW cW refW seqW = PredictResult.ok rW ∧
    (rW.changeIndicator.length = 20 ∧
     rW.changedPosition - 1 < 20 ∧
     ∀ k, k < 20 →
       rW.changeIndicator.getD k ' ' = if k = rW.changedPosition - 1 then '*' else '.') ∧
    rW.changeIndicator = ['.','.','.','.','*','.','.','.','.','.','.','.','.','.','.','.','.','.','.','.'] :=
  ⟨predW, C5_change_indicator eW cW refW seqW rW predW, by decide⟩

/-! ## Claim C7 -/

/-- C7: a successful response's message is the improvement message (old and
new truncated integer percentages) precisely when the edited score strictly
exceeds the original score, and the already-optimal message (citing the
original truncated percentage) precisely when it does not. -/
theorem C7_message_improvement (embed : List Char → Mat) (cos : Vec → Vec → ℚ)
    (ref : Mat) (raw : List Char) (r : PredictResponse)
    (edited : List Char) (index : Nat) (base : Char) (edited_score : ℚ)
    (hpe : predict_edit embed cos (pyUpper raw) ref =
      Except.ok (edited, index, base, edited_score))
    (hok : predict_sequence embed cos ref raw = PredictResult.ok r) :
    (get_sequence_score embed cos (pyUpper raw) ref < edited_score →
      r.message = improveMsg r.originalEfficiency r.efficiency) ∧
    (edited_score ≤ get_sequence_score embed cos (pyUpper raw) ref →
      r.message = optimalMsg r.originalEfficiency) := by
  obtain ⟨e2, i2, b2, s2, origBase, hlen, hall, hpe2, hget, hr⟩ :=
    predict_ok_inv embed cos ref raw r hok
  obtain ⟨he, hi, hb, hs⟩ : e2 = edited ∧ i2 = index ∧ b2 = base ∧ s2 = edited_score := by
    have := Except.ok.inj (hpe2.symm.trans hpe)
    simp only [Prod.mk.injEq] at this
    tauto
  subst he hi hb hs hr
  constructor
  · intro hcmp
    simp [if_pos hcmp]
  · intro hcmp
    simp [if_neg (not_lt.mpr hcmp)]

/-- Witness for C7: in the concrete run on `seqW` the edited score `1`
strictly exceeds the original `19/20`, and the message is the improvement
message `95% to 100%`. -/
theorem C7_message_improvement_witness :
    predict_edit eW cW seqW refW = Except.ok (List.replicate 20 'T', 4, 'T', 1) ∧
    predict_sequence eW cW refW seqW = PredictResult.ok rW ∧
    get_sequence_score eW cW (pyUpper seqW) refW < 1 ∧
    rW.message = improveMsg rW.originalEfficiency rW.efficiency := by
  have hup : pyUpper seqW = seqW := by decide
  have hped : predict_edit eW cW (pyUpper seqW) refW =
      Except.ok (List.replicate 20 'T', 4, 'T', 1) := by rw [hup]; exact pedW
  have hlt : get_sequence_score eW cW (pyUpper seqW) refW < 1 := by
    rw [hup, scoreW]
    norm_num
  refine ⟨by rw [← hup]; exact hped, predW, hlt, ?_⟩
  exact (C7_message_improvement eW cW refW seqW rW (List.replicate 20 'T') 4 'T' 1
    hped predW).1 hlt

/-! ## Claim C10 -/

/-- C10: a successful response's edited sequence has the same length (20)
as the original, differs from it exactly at the 0-based index
`changedPosition - 1`, and the reported `originalBase`/`newBase` are the
symbols of the original and edited sequences at that index. -/
theorem C10_single_edit (embed : List Char → Mat) (cos : Vec → Vec → ℚ)
    (ref : Mat) (raw : List Char) (r : PredictResponse)
    (hok : predict_sequence embed cos ref raw = PredictResult.ok r) :
    r.originalSequence.length = 20 ∧
    r.editedSequence.length = 20 ∧
    r.changedPosition - 1 < 20 ∧
    (∀ k, k < 20 → k ≠ r.changedPosition - 1 →
      r.editedSequence.getD k ' ' = r.originalSequence.getD k ' ') ∧
    r.editedSequence.getD (r.changedPosition - 1) ' ' ≠
      r.originalSequence.getD (r.changedPosition - 1) ' ' ∧
    r.originalBase = r.originalSequence.getD (r.changedPosition - 1) ' ' ∧
    r.newBase = r.editedSequence.getD (r.changedPosition - 1) ' ' := by
  obtain ⟨edited, index, base, score, origBase, hlen, hall, hpe, hget, hr⟩ :=
    predict_ok_inv embed cos ref raw r hok
  have hidx : index < (pyUpper raw).length := by
    by_contra hge
    rw [List.get?_eq_none.mpr (by omega)] at hget
    exact absurd hget (by simp)
  obtain ⟨hfpp, hcb, hmut⟩ :=
    predict_edit_ok_inv embed cos (pyUpper raw) ref edited index base score hpe
  obtain ⟨original, hget2, hbmem, hbne, hscore⟩ :=
    choose_best_ok_some_inv embed cos (pyUpper raw) index ref base score hcb
  obtain rfl : origBase = original := Option.some.inj (hget.symm.trans hget2)
  have horig : (pyUpper raw).getD index ' ' = origBase := by
    rw [List.getD_eq_getElem?_getD, ← List.get?_eq_getElem?, hget]
    rfl
  subst hr hmut
  refine ⟨hlen, ?_, by simp; omega, ?_, ?_, ?_, ?_⟩
  · simpa [hlen] using mutate_length (pyUpper raw) index base hidx
  · intro k hk hkne
    have : k ≠ index := by simpa using hkne
    simpa using mutate_getD_of_ne (pyUpper raw) index base hidx k this ' '
  · simp only [Nat.add_sub_cancel]
    rw [mutate_getD_self (pyUpper raw) index base hidx, horig]
    exact hbne
  · simp only [Nat.add_sub_cancel]
    exact horig.symm
  · simp only [Nat.add_sub_cancel]
    exact (mutate_getD_self (pyUpper raw) index base hidx ' ').symm

/-- Witness for C10: the concrete run on `seqW` changes exactly position 4
from `'A'` to `'T'`. -/
theorem C10_single_edit_witness :
    predict_sequence eW cW refW seqW = PredictResult.ok rW ∧
    (rW.originalSequence.length = 20 ∧
     rW.editedSequence.length = 20 ∧
     rW.changedPosition - 1 < 20 ∧
     (∀ k, k < 20 → k ≠ rW.changedPosition - 1 →
       rW.editedSequence.getD k ' ' = rW.originalSequence.getD k ' ') ∧
     rW.editedSequence.getD (rW.changedPosition - 1) ' ' ≠
       rW.originalSequence.getD (rW.changedPosition - 1) ' ' ∧
     rW.originalBase = rW.originalSequence.getD (rW.changedPosition - 1) ' ' ∧
     rW.newBase = rW.editedSequence.getD (rW.changedPosition - 1) ' ') :=
  ⟨predW, C10_single_edit eW cW refW seqW rW predW⟩

/-! ## Claim C3 -/

/-- C3 (amended): both efficiency fields of a successful response are the
similarity scores scaled by 100 and truncated toward zero (Python `int`),
never rounded — in particular a similarity of `0.876` yields `87`, not
`88` — and they lie in `[0, 100]` *whenever the corresponding similarity
lies in `[0, 1]*`.  (Cosine similarity ranges over `[-1, 1]`, and a negative
similarity produces a negative field — see the counterexample.) -/
theorem C3_efficiency_truncation (embed : List Char → Mat) (cos : Vec → Vec → ℚ)
    (ref : Mat) (raw : List Char) (r : PredictResponse)
    (edited : List Char) (index : Nat) (base : Char) (edited_score : ℚ)
    (hpe : predict_edit embed cos (pyUpper raw) ref =
      Except.ok (edited, index, base, edited_score))
    (hok : predict_sequence embed cos ref raw = PredictResult.ok r) :
    r.efficiency = pyTrunc (edited_score * 100) ∧
    r.originalEfficiency =
      pyTrunc (get_sequence_score embed cos (pyUpper raw) ref * 100) ∧
    (0 ≤ edited_score → edited_score ≤ 1 →
      0 ≤ r.efficiency ∧ r.efficiency ≤ 100) ∧
    (0 ≤ get_sequence_score embed cos (pyUpper raw) ref →
      get_sequence_score embed cos (pyUpper raw) ref ≤ 1 →
      0 ≤ r.originalEfficiency ∧ r.originalEfficiency ≤ 100) ∧
    pyTrunc ((876 : ℚ) / 1000 * 100) = 87 ∧
    pyTrunc ((876 : ℚ) / 1000 * 100) ≠ 88 := by
  have htrunc : ∀ q : ℚ, 0 ≤ q → q ≤ 1 →
      0 ≤ pyTrunc (q * 100) ∧ pyTrunc (q * 100) ≤ 100 := by
    intro q h0 h1
    have h0' : (0:ℚ) ≤ q * 100 := by nlinarith
    rw [pyTrunc, if_pos h0']
    refine ⟨Int.floor_nonneg.mpr h0', ?_⟩
    have h100 : q * 100 ≤ (100:ℚ) := by nlinarith
    calc ⌊q * 100⌋ ≤ ⌊(100:ℚ)⌋ := Int.floor_le_floor h100
      _ = 100 := by norm_num
  obtain ⟨e2, i2, b2, s2, origBase, hlen, hall, hpe2, hget, hr⟩ :=
    predict_ok_inv embed cos ref raw r hok
  obtain ⟨he, hi, hb, hs⟩ : e2 = edited ∧ i2 = index ∧ b2 = base ∧ s2 = edited_score := by
    have := Except.ok.inj (hpe2.symm.trans hpe)
    simp only [Prod.mk.injEq] at this
    tauto
  subst he hi hb hs hr
  refine ⟨rfl, rfl, fun h0 h1 => htrunc _ h0 h1, fun h0 h1 => htrunc _ h0 h1, ?_, ?_⟩
  · rw [pyTrunc, if_pos (by norm_num)]
    norm_num
  · rw [pyTrunc, if_pos (by norm_num)]
    norm_num

/-- Witness for C3: the concrete run on `seqW` has edited score `1` and
original score `19/20`, both in `[0, 1]`, with fields `100` and `95`. -/
theorem C3_efficiency_truncation_witness :
    predict_edit eW cW (pyUpper seqW) refW =
      Except.ok (List.replicate 20 'T', 4, 'T', 1) ∧
    predict_sequence eW cW refW seqW = PredictResult.ok rW ∧
    rW.efficiency = pyTrunc ((1:ℚ) * 100) ∧
    rW.originalEfficiency = pyTrunc (get_sequence_score eW cW (pyUpper seqW) refW * 100) ∧
    (0 ≤ (1:ℚ) → (1:ℚ) ≤ 1 → 0 ≤ rW.efficiency ∧ rW.efficiency ≤ 100) ∧
    pyTrunc ((876 : ℚ) / 1000 * 100) = 87 := by
  have hup : pyUpper seqW = seqW := by decide
  have hped : predict_edit eW cW (pyUpper seqW) refW =
      Except.ok (List.replicate 20 'T', 4, 'T', 1) := by rw [hup]; exact pedW
  have h := C3_efficiency_truncation eW cW refW seqW rW
    (List.replicate 20 'T') 4 'T' 1 hped predW
  exact ⟨hped, predW, h.1, h.2.1, h.2.2.1, h.2.2.2.2.1⟩

/-- Counterexample to C3 as stated: with an encoder whose embeddings are the
unit vector `[-3/5, 4/5]` and the profile `[[1, 0]]` (the kernel `dotQ` is
the exact cosine on unit vectors), every score is `-3/5`, the prediction
succeeds, and both efficiency fields are `-60`, outside `[0, 100]`. -/
theorem C3_efficiency_negative_counterexample :
    predict_sequence eC3 dotQ refC3 seqA = PredictResult.ok rC3 ∧
    rC3.efficiency = -60 ∧ ¬ (0 ≤ rC3.efficiency ∧ rC3.efficiency ≤ 100) := by
  have hfpp : find_problematic_position dotQ (eC3 seqA) refC3 = Except.ok 0 := by
    rw [show eC3 seqA = [[-3/5, 4/5]] from rfl]
    norm_num [find_problematic_position, dotQ, refC3, argminIdx]
  have halt : ∀ b : Char, altScore eC3 dotQ seqA 0 refC3 b = -3/5 := by
    intro b
    rw [altScore]
    norm_num [eC3, dotQ, refC3, meanPool, sumVecs]
  have hchoose : choose_best_alternate_base eC3 dotQ seqA 0 refC3 =
      Except.ok (some 'T', -3/5) := by
    simp only [choose_best_alternate_base, show seqA.get? 0 = some 'A' from by decide]
    rw [show List.filter (fun b => decide (b ≠ 'A')) BASES = ['T', 'C', 'G'] from by decide]
    simp only [List.foldl_cons, List.foldl_nil, bestStep, halt]
    norm_num
  have hped : predict_edit eC3 dotQ seqA refC3 =
      Except.ok (mutate seqA 0 'T', 0, 'T', -3/5) := by
    simp only [predict_edit, hfpp, hchoose]
  have hscore : get_sequence_score eC3 dotQ seqA refC3 = -3/5 := by
    rw [get_sequence_score, show eC3 seqA = [[-3/5, 4/5]] from rfl]
    norm_num [dotQ, refC3, meanPool, sumVecs]
  refine ⟨?_, by decide, by decide⟩
  rw [predict_sequence, show pyUpper seqA = seqA from by decide,
    if_neg (by decide), if_neg (by decide)]
  simp only [hped, hscore, show seqA.get? 0 = some 'A' from by decide]
  have hceil : (⌈(-60:ℚ)⌉ : ℤ) = -60 := by
    rw [show ((-60:ℚ)) = ((-60 : ℤ) : ℚ) by norm_num, Int.ceil_intCast]
  norm_num [rC3, pyTrunc, optimalMsg, hceil]

/-! ## Shape and entry lemmas for the reference-profile builder -/

theorem addVec_getD (a b : Vec) (j : Nat) (hja : j < a.length) (hjb : j < b.length) :
    (addVec a b).getD j 0 = a.getD j 0 + b.getD j 0 := by
  have hz : j < (List.zipWith (· + · : ℚ → ℚ → ℚ) a b).length := by
    rw [List.length_zipWith]
    omega
  rw [addVec, List.getD_eq_getElem _ _ hz, List.getElem_zipWith,
    List.getD_eq_getElem _ _ hja, List.getD_eq_getElem _ _ hjb]

theorem addVec_length {D : Nat} {a b : Vec} (ha : a.length = D) (hb : b.length = D) :
    (addVec a b).length = D := by
  rw [addVec, List.length_zipWith]
  omega

theorem addMat_shape {L D : Nat} {a b : Mat} (ha : Shaped L D a) (hb : Shaped L D b) :
    Shaped L D (addMat a b) := by
  constructor
  · rw [addMat, List.length_zipWith, ha.1, hb.1]
    omega
  · intro v hv
    obtain ⟨i, hi, rfl⟩ := List.mem_iff_getElem.mp hv
    simp only [addMat] at hi ⊢
    rw [List.getElem_zipWith]
    exact addVec_length
      (ha.2 _ (List.getElem_mem _))
      (hb.2 _ (List.getElem_mem _))

theorem addMat_entry {L D : Nat} {a b : Mat} (ha : Shaped L D a) (hb : Shaped L D b)
    (i j : Nat) (hi : i < L) (hj : j < D) :
    ((addMat a b).getD i []).getD j 0 =
      (a.getD i []).getD j 0 + (b.getD i []).getD j 0 := by
  have hia : i < a.length := by rw [ha.1]; exact hi
  have hib : i < b.length := by rw [hb.1]; exact hi
  have hiz : i < (List.zipWith addVec a b).length := by
    rw [List.length_zipWith]
    omega
  simp only [addMat]
  rw [List.getD_eq_getElem _ _ hiz, List.getElem_zipWith,
    List.getD_eq_getElem _ _ hia, List.getD_eq_getElem _ _ hib]
  exact addVec_getD _ _ j
    (by rw [ha.2 _ (List.getElem_mem _)]; exact hj)
    (by rw [hb.2 _ (List.getElem_mem _)]; exact hj)

theorem foldl_addMat_shape {L D : Nat} :
    ∀ (ms : List Mat) (m : Mat), Shaped L D m → (∀ M ∈ ms, Shaped L D M) →
      Shaped L D (ms.foldl addMat m)
  | [], m, hm, _ => hm
  | M :: tl, m, hm, hms => by
    rw [List.foldl_cons]
    exact foldl_addMat_shape tl (addMat m M)
      (addMat_shape hm (hms M (List.mem_cons_self _ _)))
      (fun N hN => hms N (List.mem_cons_of_mem _ hN))

theorem foldl_addMat_entry {L D : Nat} (i j : Nat) (hi : i < L) (hj : j < D) :
    ∀ (ms : List Mat) (m : Mat), Shaped L D m → (∀ M ∈ ms, Shaped L D M) →
      ((ms.foldl addMat m).getD i []).getD j 0 =
        (m.getD i []).getD j 0 + (ms.map (fun M => (M.getD i []).getD j 0)).sum
  | [], m, hm, _ => by simp
  | M :: tl, m, hm, hms => by
    rw [List.foldl_cons]
    have hM := hms M (List.mem_cons_self _ _)
    have htl : ∀ N ∈ tl, Shaped L D N := fun N hN => hms N (List.mem_cons_of_mem _ hN)
    rw [foldl_addMat_entry i j hi hj tl (addMat m M) (addMat_shape hm hM) htl,
      addMat_entry hm hM i j hi hj]
    simp [add_assoc]

theorem stackMean_length {L D : Nat} (ms : List Mat) (hne : ms ≠ [])
    (hsh : ∀ M ∈ ms, Shaped L D M) : (stackMean ms).length = L := by
  match ms, hne with
  | m :: rest, _ =>
    rw [stackMean]
    simp only [List.length_map]
    exact (foldl_addMat_shape rest m (hsh m (List.mem_cons_self _ _))
      (fun N hN => hsh N (List.mem_cons_of_mem _ hN))).1

theorem stackMean_entry {L D : Nat} (ms : List Mat) (hne : ms ≠ [])
    (hsh : ∀ M ∈ ms, Shaped L D M) (i j : Nat) (hi : i < L) (hj : j < D) :
    ((stackMean ms).getD i []).getD j 0 =
      (ms.map (fun M => (M.getD i []).getD j 0)).sum / (ms.length : ℚ) := by
  match ms, hne with
  | m :: rest, _ =>
    have hm := hsh m (List.mem_cons_self _ _)
    have hrest : ∀ N ∈ rest, Shaped L D N := fun N hN => hsh N (List.mem_cons_of_mem _ hN)
    have hfsh := foldl_addMat_shape rest m hm hrest
    have hif : i < (rest.foldl addMat m).length := by rw [hfsh.1]; exact hi
    have hjf : j < ((rest.foldl addMat m)[i]).length := by
      rw [hfsh.2 _ (List.getElem_mem _)]
      exact hj
    have hjf' : j < (((rest.foldl addMat m)[i]).map (· / ((m :: rest).length : ℚ))).length := by
      rw [List.length_map]
      exact hjf
    rw [stackMean]
    have himap : i < ((rest.foldl addMat m).map
        (fun v => v.map (· / (((m :: rest).length : Nat) : ℚ)))).length := by
      rw [List.length_map]
      exact hif
    rw [List.getD_eq_getElem _ _ himap, List.getElem_map, List.getD_eq_getElem _ _ hjf',
      List.getElem_map]
    have hsum := foldl_addMat_entry i j hi hj rest m hm hrest
    rw [List.getD_eq_getElem _ _ hif, List.getD_eq_getElem _ _ hjf] at hsum
    rw [hsum]
    simp [div_eq_mul_inv]

theorem foldl_max_le_acc : ∀ (ms : List Mat) (a : Nat),
    a ≤ ms.foldl (fun m e => max m e.length) a
  | [], _ => le_refl _
  | M :: tl, a => by
    rw [List.foldl_cons]
    exact le_trans (Nat.le_max_left _ _) (foldl_max_le_acc tl _)

theorem foldl_max_le : ∀ (ms : List Mat) (a : Nat), ∀ M ∈ ms,
    M.length ≤ ms.foldl (fun m e => max m e.length) a
  | [], _, M, hM => by simp at hM
  | N :: tl, a, M, hM => by
    rw [List.foldl_cons]
    rcases List.mem_cons.mp hM with rfl | hM
    · exact le_trans (Nat.le_max_right _ _) (foldl_max_le_acc tl _)
    · exact foldl_max_le tl _ M hM

theorem foldl_max_cases : ∀ (ms : List Mat) (a : Nat),
    ms.foldl (fun m e => max m e.length) a = a ∨
      ∃ M ∈ ms, ms.foldl (fun m e => max m e.length) a = M.length
  | [], _ => Or.inl rfl
  | N :: tl, a => by
    rw [List.foldl_cons]
    rcases foldl_max_cases tl (max a N.length) with h | ⟨M, hM, h⟩
    · rw [h]
      rcases Nat.le_total a N.length with hle | hle
      · exact Or.inr ⟨N, List.mem_cons_self _ _, Nat.max_eq_right hle⟩
      · exact Or.inl (Nat.max_eq_left hle)
    · exact Or.inr ⟨M, List.mem_cons_of_mem _ hM, h⟩

theorem le_maxLenMats (ms : List Mat) (M : Mat) (hM : M ∈ ms) :
    M.length ≤ maxLenMats ms :=
  foldl_max_le ms 0 M hM

theorem maxLenMats_attained (ms : List Mat) (hne : ms ≠ []) :
    ∃ M ∈ ms, M.length = maxLenMats ms := by
  rcases foldl_max_cases ms 0 with h | ⟨M, hM, h⟩
  · match ms, hne with
    | m :: rest, _ =>
      refine ⟨m, List.mem_cons_self _ _, le_antisymm (le_maxLenMats _ m (List.mem_cons_self _ _)) ?_⟩
      rw [maxLenMats, h]
      exact Nat.zero_le _
  · exact ⟨M, hM, h.symm⟩

/-! ## Claim C6 -/

/-- C6: for a non-empty list of reference sequences (each embedding
non-empty with uniform row width `D`, as encoder output is), the profile
builder embeds each reference independently, takes `L` to be the maximum
token count, zero-pads each matrix's tail to length `L`, and returns the
position-wise arithmetic mean: the result has exactly `L` positions and its
entry at position `i`, coordinate `j` is the mean over the references of the
zero-padded matrices' entries there. -/
theorem C6_reference_profile (embed : List Char → Mat) (seqs : List (List Char))
    (D : Nat) (hne : seqs ≠ [])
    (hrows : ∀ s ∈ seqs, ∀ v ∈ embed s, v.length = D)
    (hembne : ∀ s ∈ seqs, embed s ≠ []) :
    (generate_reference_token_embedding embed seqs).length = maxLenMats (seqs.map embed) ∧
    (∀ s ∈ seqs, (embed s).length ≤ maxLenMats (seqs.map embed)) ∧
    (∃ s ∈ seqs, (embed s).length = maxLenMats (seqs.map embed)) ∧
    (∀ i, i < maxLenMats (seqs.map embed) → ∀ j, j < D →
      ((generate_reference_token_embedding embed seqs).getD i []).getD j 0 =
        (seqs.map (fun s =>
          ((padTail D (maxLenMats (seqs.map embed)) (embed s)).getD i []).getD j 0)).sum
          / (seqs.length : ℚ)) := by
  have hdim : ∀ s ∈ seqs, vecDim (embed s) = D := by
    intro s hs
    match hemb : embed s, hembne s hs with
    | v :: rest, _ =>
      rw [vecDim]
      exact hrows s hs v (by rw [hemb]; exact List.mem_cons_self _ _)
  have hpadded : (seqs.map embed).map
        (fun emb => padTail (vecDim emb) (maxLenMats (seqs.map embed)) emb) =
      seqs.map (fun s => padTail D (maxLenMats (seqs.map embed)) (embed s)) := by
    rw [List.map_map]
    exact List.map_congr_left (fun s hs => by
      simp only [Function.comp_apply, hdim s hs])
  have hgen : generate_reference_token_embedding embed seqs =
      stackMean (seqs.map (fun s => padTail D (maxLenMats (seqs.map embed)) (embed s))) := by
    rw [generate_reference_token_embedding, hpadded]
  have hpadne : seqs.map (fun s => padTail D (maxLenMats (seqs.map embed)) (embed s)) ≠ [] := by
    simpa using hne
  have hpadsh : ∀ M ∈ seqs.map (fun s => padTail D (maxLenMats (seqs.map embed)) (embed s)),
      Shaped (maxLenMats (seqs.map embed)) D M := by
    intro M hM
    obtain ⟨s, hs, rfl⟩ := List.mem_map.mp hM
    constructor
    · rw [padTail, List.length_append, List.length_replicate]
      have := le_maxLenMats (seqs.map embed) (embed s) (List.mem_map_of_mem embed hs)
      omega
    · intro v hv
      rcases List.mem_append.mp hv with hv | hv
      · exact hrows s hs v hv
      · rw [List.eq_of_mem_replicate hv, List.length_replicate]
  refine ⟨?_, ?_, ?_, ?_⟩
  · rw [hgen]
    exact stackMean_length _ hpadne hpadsh
  · intro s hs
    exact le_maxLenMats (seqs.map embed) (embed s) (List.mem_map_of_mem embed hs)
  · obtain ⟨M, hM, hMlen⟩ := maxLenMats_attained (seqs.map embed) (by simpa using hne)
    obtain ⟨s, hs, rfl⟩ := List.mem_map.mp hM
    exact ⟨s, hs, hMlen⟩
  · intro i hi j hj
    rw [hgen, stackMean_entry _ hpadne hpadsh i j hi hj, List.map_map,
      List.length_map]
    rfl

/-- Witness for C6: two references of token counts 1 and 2; the profile has
the maximal length 2 and equals the position-wise mean of the zero-padded
matrices: `[[1], [1]]` (position 1 averages the pad `0` with `2`). -/
theorem C6_reference_profile_witness :
    ([['A'], ['A','T']] : List (List Char)) ≠ [] ∧
    (∀ s ∈ ([['A'], ['A','T']] : List (List Char)), ∀ v ∈ eC6 s, v.length = 1) ∧
    (∀ s ∈ ([['A'], ['A','T']] : List (List Char)), eC6 s ≠ []) ∧
    ((generate_reference_token_embedding eC6 [['A'], ['A','T']]).length =
        maxLenMats ([['A'], ['A','T']].map eC6) ∧
      (∀ s ∈ ([['A'], ['A','T']] : List (List Char)),
        (eC6 s).length ≤ maxLenMats ([['A'], ['A','T']].map eC6)) ∧
      (∃ s ∈ ([['A'], ['A','T']] : List (List Char)),
        (eC6 s).length = maxLenMats ([['A'], ['A','T']].map eC6)) ∧
      (∀ i, i < maxLenMats ([['A'], ['A','T']].map eC6) → ∀ j, j < 1 →
        ((generate_reference_token_embedding eC6 [['A'], ['A','T']]).getD i []).getD j 0 =
          ([['A'], ['A','T']].map (fun s =>
            ((padTail 1 (maxLenMats ([['A'], ['A','T']].map eC6)) (eC6 s)).getD i []).getD j 0)).sum
            / (([['A'], ['A','T']] : List (List Char)).length : ℚ))) ∧
    generate_reference_token_embedding eC6 [['A'], ['A','T']] = [[1], [1]] := by
  refine ⟨by decide, by decide, by decide,
    C6_reference_profile eC6 [['A'], ['A','T']] 1 (by decide) (by decide) (by decide), ?_⟩
  rw [generate_reference_token_embedding]
  norm_num [eC6, maxLenMats, stackMean, addMat, addVec, padTail, vecDim, List.replicate,
    show ('T' = 'A') = False from by simp]
